import Mathlib

/-!
Shallow embedding of the createXcrunch miner core (src/lib.rs, src/main.rs,
src/webgpu.rs).  Machine bytes are modelled as `Nat` values below 256, byte
strings as `List Nat`, Rust `&str` as `List Char`, fallible computations
(including any slice access that could panic) as `Option`.  The process-wide
mutable `RAW_PATTERN` global of webgpu.rs is threaded as an explicit
`Option (List Char)` argument.
-/

/-- Value of one ASCII hex digit, as accepted by `u8::from_str_radix(_, 16)`
and `char::is_ascii_hexdigit` (both cases). -/
def hexDigitVal (c : Char) : Option Nat :=
  if '0' ≤ c ∧ c ≤ '9' then some (c.toNat - '0'.toNat)
  else if 'a' ≤ c ∧ c ≤ 'f' then some (c.toNat - 'a'.toNat + 10)
  else if 'A' ≤ c ∧ c ≤ 'F' then some (c.toNat - 'A'.toNat + 10)
  else none

/-- Rust `char::is_ascii_hexdigit`. -/
def isHexDigitChar (c : Char) : Bool :=
  ('0' ≤ c && c ≤ '9') || ('a' ≤ c && c ≤ 'f') || ('A' ≤ c && c ≤ 'F')

/-- Rust `u8::from_str_radix(s, 16)`: fails on the empty string, on a
non-hex-digit, or when the value overflows a `u8`. -/
def fromHexByte (s : List Char) : Option Nat :=
  if s.isEmpty then none
  else
    s.foldl
      (fun acc c => do
        let a ← acc
        let d ← hexDigitVal c
        let v := a * 16 + d
        if v < 256 then some v else none)
      (some 0)

/-- Rust `str::split("...")`, left to right and non-overlapping.  A string
contains the separator `"..."` exactly when this yields at least two parts,
which is how `contains("...")` is modelled below. -/
def splitOn3 : List Char → List (List Char)
  | [] => [[]]
  | '.' :: '.' :: '.' :: rest => [] :: splitOn3 rest
  | c :: rest =>
    match splitOn3 rest with
    | [] => [[c]]
    | h :: t => (c :: h) :: t

/-- Two-character chunks of a string, modelling the stepped slice loop
`for i in (0..len).step_by(2) ... &s[i..i+2]` of `parse_pattern` (the inputs
it is applied to always have even length). -/
def chunk2 : List Char → List (List Char)
  | [] => []
  | [c] => [[c]]
  | c1 :: c2 :: rest => [c1, c2] :: chunk2 rest

/-- Lowercase hex encoding of a byte string, Rust `hex::encode`. -/
def hexEncode (bytes : List Nat) : List Char :=
  bytes.foldr
    (fun b acc => Nat.digitChar (b / 16 % 16) :: Nat.digitChar (b % 16) :: acc)
    []

/-- The reward specification, src/lib.rs `RewardVariant` (thresholds are `u8`
in the source, patterns are strings). -/
inductive RewardVariant where
  | leadingZeros (zerosThreshold : Nat)
  | totalZeros (zerosThreshold : Nat)
  | leadingAndTotalZeros (leadingZerosThreshold totalZerosThreshold : Nat)
  | leadingOrTotalZeros (leadingZerosThreshold totalZerosThreshold : Nat)
  | matching (pattern : List Char)
deriving DecidableEq

/-- The salt layout selector, src/lib.rs `SaltVariant` (a chain id is 32
bytes, a calling address 20 bytes). -/
inductive SaltVariant where
  | crosschainSender (chainId callingAddress : List Nat)
  | crosschain (chainId : List Nat)
  | sender (callingAddress : List Nat)
  | random
deriving DecidableEq

/-- Big-endian bytes of a `u64`, Rust `u64::to_be_bytes` (src/lib.rs line 88). -/
def beBytes8 (n : Nat) : List Nat :=
  [n / 256 ^ 7 % 256, n / 256 ^ 6 % 256, n / 256 ^ 5 % 256, n / 256 ^ 4 % 256,
   n / 256 ^ 3 % 256, n / 256 ^ 2 % 256, n / 256 % 256, n % 256]

/-- The 32-byte chain id encoding built in `Config::new` (src/lib.rs lines
86-90): 24 zero bytes followed by the chain id as big-endian `u64`. -/
def chainIdBytes (c : Nat) : List Nat :=
  List.replicate 24 0 ++ beBytes8 c

/-- The `salt_variant` match of `Config::new` (src/lib.rs lines 180-192),
including the fall-through of a guarded arm: when the guard
`calling_address != [0u8; 20]` fails, the wildcard arm is reached. -/
def configSaltVariant (chainId callingAddress : Option (List Nat)) : SaltVariant :=
  match chainId, callingAddress with
  | some cid, some ca =>
    if ca ≠ List.replicate 20 0 then .crosschainSender cid ca else .random
  | some cid, none => .crosschain cid
  | none, some ca =>
    if ca ≠ List.replicate 20 0 then .sender ca else .random
  | none, none => .random

/-- The nested `validate_zeros_threshold` of `Config::new` (src/lib.rs lines
118-127). -/
def validateZerosThreshold (t : Nat) : Except String Unit :=
  if t == 0 then Except.error "threshold must be greater than 0"
  else if 20 < t then Except.error "threshold must be less than 20"
  else Except.ok ()

/-- The nested `validate_pattern` of `Config::new` (src/lib.rs lines
129-178). -/
def validatePattern (p : List Char) : Except String Unit :=
  if p.isEmpty then Except.error "pattern cannot be empty"
  else
    let parts := splitOn3 p
    if 2 ≤ parts.length then
      if parts.length ≠ 2 then
        Except.error "pattern must have exactly one ... separator"
      else
        let lead := parts.getD 0 []
        let trail := parts.getD 1 []
        if lead.isEmpty then Except.error "leading part of pattern cannot be empty"
        else if lead.length % 2 ≠ 0 then
          Except.error "leading part must have even number of characters"
        else if ¬ lead.all isHexDigitChar then
          Except.error "leading part must contain only hex characters"
        else if ¬ trail.isEmpty then
          if trail.length ≠ 2 then
            Except.error "trailing part must be exactly 2 characters"
          else if ¬ trail.all isHexDigitChar then
            Except.error "trailing part must contain only hex characters"
          else Except.ok ()
        else Except.ok ()
    else
      if p.length ≠ 2 then Except.error "simple pattern must be exactly 2 characters"
      else if ¬ p.all isHexDigitChar then
        Except.error "pattern must contain only hex characters"
      else Except.ok ()

/-- The reward-validation match of `Config::new` (src/lib.rs lines 97-116). -/
def configValidateReward (r : RewardVariant) : Except String Unit :=
  match r with
  | .leadingZeros t => validateZerosThreshold t
  | .totalZeros t => validateZerosThreshold t
  | .leadingAndTotalZeros l t => do
    validateZerosThreshold l
    validateZerosThreshold t
  | .leadingOrTotalZeros l t => do
    validateZerosThreshold l
    validateZerosThreshold t
  | .matching p => validatePattern p

/-- src/webgpu.rs `parse_pattern` (lines 506-587): compiles a pattern string
into `(pattern_value, pattern_flags, pattern_length)`.  The local mutable
variables are threaded through the branch structure; the final
`if pattern_flags == 5` or-ing of the trailing byte into the value is folded
into the only branch that sets flag 5. -/
def parsePattern (p : List Char) : Nat × Nat × Nat :=
  if p.isEmpty then (0, 0, 0)
  else
    let parts := splitOn3 p
    if 2 ≤ parts.length then
      if parts.length == 2 then
        let lead := parts.getD 0 []
        let trail := parts.getD 1 []
        if ¬ lead.isEmpty ∧ lead.length % 2 == 0 ∧ ¬ trail.isEmpty ∧ trail.length == 2 then
          (99, 99, 0)
        else if ¬ lead.isEmpty ∧ lead.length % 2 == 0 then
          let first2 := lead.take 2
          if (chunk2 lead).all (· == first2) then
            match fromHexByte first2 with
            | some v =>
              if ¬ trail.isEmpty ∧ trail.length == 2 then
                match fromHexByte trail with
                | some tr => (v ||| (tr <<< 8), 5, lead.length / 2)
                | none => (v, 0, lead.length / 2)
              else (v, 4, lead.length / 2)
            | none => (0, 0, 0)
          else (0, 0, 0)
        else (0, 0, 0)
      else (0, 0, 0)
    else (0, 0, 0)

/-- src/webgpu.rs `check_eth_address_pattern` (lines 648-777).  `rp` is the
`RAW_PATTERN` global (fixed for a run before the loop starts; the
`PREFIX`/`SUFFIX` statics only cache the pure computation from it).  A slice
index that would panic in Rust yields `none`; the short-circuit evaluation of
`&&` and `||` around the indexing is preserved. -/
def checkEthAddressPattern (rp : Option (List Char)) (addr : List Nat)
    (value flags plen : Nat) : Option Bool :=
  if addr.isEmpty then some false
  else if flags == 99 then
    let hexAddr := hexEncode addr
    match rp with
    | some p =>
      let parts := splitOn3 p
      if parts.length == 2 then
        let leadLower := (parts.getD 0 []).map Char.toLower
        let trailLower := (parts.getD 1 []).map Char.toLower
        some (leadLower.isPrefixOf hexAddr && trailLower.isSuffixOf hexAddr)
      else
        some ((p.map Char.toLower).isPrefixOf hexAddr)
    | none => some (([] : List Char).isPrefixOf hexAddr)
  else if flags == 0 || flags == 1 then do
    let b ← addr.get? 0
    pure (b == value)
  else if flags == 2 then do
    let b ← addr.get? (addr.length - 1)
    pure (b == value)
  else if flags == 3 then do
    let b ← addr.get? 0
    if b == value then do
      let bl ← addr.get? (addr.length - 1)
      pure (bl == value)
    else pure false
  else if flags == 4 then
    if plen == 1 then do
      let b ← addr.get? 0
      pure (b == value)
    else if plen == 2 then do
      let b0 ← addr.get? 0
      if b0 == value then do
        let b1 ← addr.get? 1
        pure (b1 == value)
      else pure false
    else
      some ((List.range plen).all fun i =>
        decide (i < addr.length) && (addr.getD i 0 == value))
  else if flags == 5 then do
    let b0 ← addr.get? 0
    if b0 != value then pure false
    else do
      let bl ← addr.get? (addr.length - 1)
      if bl != value / 256 % 256 then pure false
      else
        pure ((List.range' 1 (plen - 1)).all fun i =>
          decide (i < addr.length) && (addr.getD i 0 == value))
  else
    let hexAddr := hexEncode addr
    some ((['a', 'b', 'c', 'd'] : List Char).isPrefixOf hexAddr &&
      (['e', 'f'] : List Char).isSuffixOf hexAddr)

/-- The reward-compilation match of `gpu` (src/webgpu.rs lines 172-193):
`(pattern_value, pattern_flags, pattern_length)` for each reward variant. -/
def compileReward (r : RewardVariant) : Nat × Nat × Nat :=
  match r with
  | .matching p => parsePattern p
  | .leadingZeros z => (0, 4, z)
  | .totalZeros z => (0, 5, z)
  | .leadingAndTotalZeros l t => (l, 6, t)
  | .leadingOrTotalZeros l t => (l, 7, t)

/-- The `RAW_PATTERN` global as set by `gpu` (src/webgpu.rs lines 36-41):
only a `Matching` reward stores its pattern. -/
def rawPatternOf (r : RewardVariant) : Option (List Char) :=
  match r with
  | .matching p => some p
  | _ => none

/-- One reward evaluation as performed in the batch loop (src/webgpu.rs line
405): the compiled configuration is applied to an address, with
`pattern_value` narrowed by the `as u8` cast at the call site. -/
def evalReward (r : RewardVariant) (addr : List Nat) : Option Bool :=
  match compileReward r with
  | (v, f, l) => checkEthAddressPattern (rawPatternOf r) addr (v % 256) f l

/-- The fixed batch size `work_size` of `gpu` (src/webgpu.rs line 109). -/
def workSize : Nat := 1000000

/-- The host-side `u64` search counter before batch `k`: it starts at 0
(line 324) and gains `work_size` after every batch (line 460). -/
def hostNonce (k : Nat) : Nat := k * workSize % 2 ^ 64

/-- The batch base the oracle actually receives for batch `k`: the counter is
truncated by the `nonce as u32` cast before being written to the message
buffer (src/webgpu.rs line 331). -/
def oracleBase (k : Nat) : Nat := hostNonce k % 2 ^ 32

/-- Little-endian bytes of a `u32`, Rust `u32::to_le_bytes`. -/
def leBytes4 (n : Nat) : List Nat :=
  [n % 256, n / 256 % 256, n / 256 ^ 2 % 256, n / 256 ^ 3 % 256]

/-- The salt reconstructed from a returned counter in the match loop
(src/webgpu.rs lines 426-433): the low and high counter words little-endian
at bytes 0-7 and zero everywhere else, with no dependence on the
`SaltVariant`. -/
def reconstructSalt (nonceLow nonceHigh : Nat) : List Nat :=
  leBytes4 nonceLow ++ leBytes4 nonceHigh ++ List.replicate 24 0

/-- File-system operations the result sink can perform. -/
inductive FsOp where
  | createTruncate
  | openFile
  | lockExclusive
  | writeLine
deriving DecidableEq

/-- The operations of `output_file` (src/lib.rs lines 234-247): open the
output, then take an exclusive lock (fatal on failure).  This function is
never called from the run path. -/
def outputFileOps : List FsOp :=
  [FsOp.openFile, FsOp.lockExclusive]

/-- The startup sink operations of `gpu` (src/webgpu.rs lines 43-58):
truncate the output with `File::create`, then write four header lines.  No
lock is taken. -/
def gpuHeaderOps : List FsOp :=
  [FsOp.createTruncate, FsOp.writeLine, FsOp.writeLine, FsOp.writeLine, FsOp.writeLine]

/-- The per-batch sink operations of `gpu` (src/webgpu.rs lines 414-452) for
a batch with `m` matches: nothing when the batch is empty, otherwise a fresh
unlocked `OpenOptions::append` handle followed by one line per match. -/
def gpuBatchOps (m : Nat) : List FsOp :=
  if m == 0 then [] else FsOp.openFile :: List.replicate m FsOp.writeLine

/-- The whole run's sink-operation trace, for a run whose batches produce the
given match counts. -/
def gpuRunOps (batches : List Nat) : List FsOp :=
  gpuHeaderOps ++ batches.flatMap gpuBatchOps

/-- C1: the claim says every candidate and every reconstructed salt carries
the SaltVariant fixed bytes at their designated offsets around the counter
words.  In the code the reconstructed salt is built from the counter words
alone: at counter 0 (a run with SaltVariant Sender and calling address bytes
all 0xAA = 170) the salt is 32 zero bytes, so the byte 170 occurs at no
offset, and the oracle is sent only the truncated counter 0. -/
theorem salt_layout_counter_only :
    reconstructSalt 0 0 = List.replicate 32 0 ∧
    (reconstructSalt 0 0).count 170 = 0 ∧
    oracleBase 0 = 0 := by
  decide

/-- C2: for chain id 5 and an all-zero 20-byte calling address, `Config::new`
derives `Random`, not `Crosschain 5` as the claim states: the guarded
CrosschainSender arm falls through past the `(Some, None)` arm to the
wildcard.  The second conjunct shows the chain-id-only input that does yield
`Crosschain 5`. -/
theorem crosschain_zero_caller_gives_random :
    configSaltVariant (some (chainIdBytes 5)) (some (List.replicate 20 0)) =
      SaltVariant.random ∧
    configSaltVariant (some (chainIdBytes 5)) none =
      SaltVariant.crosschain (chainIdBytes 5) := by
  decide

/-- C3: the claim says the compiled `Matching "bb"` evaluator accepts an
address whose byte 0 is 0xBB = 187.  `parse_pattern` has no branch for
simple two-character patterns and returns `(0, 0, 0)`, so the evaluator
compares byte 0 against 0 and rejects the address `0xBB11...11`. -/
theorem matching_simple_pattern_ignored :
    parsePattern ['b', 'b'] = (0, 0, 0) ∧
    (187 :: List.replicate 19 17 : List Nat).getD 0 0 = 187 ∧
    evalReward (.matching ['b', 'b']) (187 :: List.replicate 19 17) = some false := by
  decide

/-- C4: the claim says `TotalZeros 1` accepts any 20-byte address with at
least one zero byte at any position.  The code compiles `TotalZeros` to
pattern flag 5, whose checker tests the leading and trailing bytes instead:
the address `0x1100...` below has exactly one zero byte (at position 1) yet
is rejected because its byte 0 is nonzero. -/
theorem total_zeros_checks_leading_and_trailing :
    (1 :: 0 :: List.replicate 18 1 : List Nat).length = 20 ∧
    (1 :: 0 :: List.replicate 18 1 : List Nat).count 0 = 1 ∧
    evalReward (.totalZeros 1) (1 :: 0 :: List.replicate 18 1) = some false := by
  decide

/-- C5: the claim says `LeadingAndTotalZeros L T` is the conjunction of the
leading-zeros and total-zeros checks, so it must accept the all-zero address
for L = T = 1.  The code compiles the variant to pattern flag 6, which no
branch of `check_eth_address_pattern` recognises: the default branch then
demands the hex prefix abcd and suffix ef, rejecting the all-zero address. -/
theorem leading_and_total_falls_to_debug_default :
    (List.replicate 20 0 : List Nat).length = 20 ∧
    (List.replicate 20 0 : List Nat).count 0 = 20 ∧
    evalReward (.leadingAndTotalZeros 1 1) (List.replicate 20 0) = some false := by
  decide

/-- C7: reward validation in `Config::new` succeeds exactly when every
supplied zeros threshold lies in [1, 20], for each of the four zeros reward
variants; in particular threshold 0 and threshold 21 are rejected. -/
theorem zeros_threshold_validation_iff :
    (∀ t, validateZerosThreshold t = Except.ok () ↔ 1 ≤ t ∧ t ≤ 20) ∧
    (∀ t, configValidateReward (.leadingZeros t) = Except.ok () ↔ 1 ≤ t ∧ t ≤ 20) ∧
    (∀ t, configValidateReward (.totalZeros t) = Except.ok () ↔ 1 ≤ t ∧ t ≤ 20) ∧
    (∀ l t, configValidateReward (.leadingAndTotalZeros l t) = Except.ok () ↔
      (1 ≤ l ∧ l ≤ 20) ∧ (1 ≤ t ∧ t ≤ 20)) ∧
    (∀ l t, configValidateReward (.leadingOrTotalZeros l t) = Except.ok () ↔
      (1 ≤ l ∧ l ≤ 20) ∧ (1 ≤ t ∧ t ≤ 20)) ∧
    configValidateReward (.leadingZeros 0) = Except.error "threshold must be greater than 0" ∧
    configValidateReward (.leadingZeros 21) = Except.error "threshold must be less than 20" := by
  have base : ∀ t, validateZerosThreshold t = Except.ok () ↔ 1 ≤ t ∧ t ≤ 20 := by
    intro t
    unfold validateZerosThreshold
    rcases Nat.eq_zero_or_pos t with h0 | h0
    · subst h0; simp
    · by_cases h20 : 20 < t <;> simp [Nat.pos_iff_ne_zero.mp h0] <;> omega
  have pair : ∀ l t,
      (validateZerosThreshold l >>= fun _ => validateZerosThreshold t) = Except.ok () ↔
        (1 ≤ l ∧ l ≤ 20) ∧ (1 ≤ t ∧ t ≤ 20) := by
    intro l t
    have hbe : ∀ (e : String) (f : Unit → Except String Unit),
        (Except.error e >>= f) = Except.error e := fun _ _ => rfl
    have hbo : ∀ f : Unit → Except String Unit, (Except.ok () >>= f) = f () :=
      fun _ => rfl
    rcases hl : validateZerosThreshold l with e | u
    · rw [hbe e]
      constructor
      · intro h
        exact Except.noConfusion h
      · intro h
        have hok := (base l).mpr h.1
        rw [hl] at hok
        exact Except.noConfusion hok
    · obtain ⟨⟩ := u
      rw [hbo, base t]
      constructor
      · intro h
        exact ⟨(base l).mp hl, h⟩
      · intro h
        exact h.2
  exact ⟨base, fun t => base t, fun t => base t, fun l t => pair l t,
    fun l t => pair l t, rfl, rfl⟩

/-- C8: the claim says the whole run writes through one store handle that is
exclusively locked for the run's duration.  Only `output_file` takes such a
lock, and the run path never calls it: the trace of sink operations the GPU
loop performs contains no lock acquisition for any sequence of batch match
counts, and a run whose first batch finds one match truncates the store
unlocked and then opens a second, fresh unlocked handle for the append. -/
theorem gpu_run_never_locks_output :
    FsOp.lockExclusive ∈ outputFileOps ∧
    (∀ batches : List Nat, (gpuRunOps batches).count FsOp.lockExclusive = 0) ∧
    gpuRunOps [1] = [FsOp.createTruncate, FsOp.writeLine, FsOp.writeLine,
      FsOp.writeLine, FsOp.writeLine, FsOp.openFile, FsOp.writeLine] := by
  refine ⟨by decide, ?_, by decide⟩
  intro batches
  rw [List.count_eq_zero]
  intro hmem
  rw [gpuRunOps, List.mem_append] at hmem
  rcases hmem with h | h
  · exact absurd h (by decide)
  · rw [List.mem_flatMap] at h
    obtain ⟨m, -, hm⟩ := h
    unfold gpuBatchOps at hm
    split at hm
    · exact absurd hm (List.not_mem_nil _)
    · rcases List.mem_cons.mp hm with h' | h'
      · exact FsOp.noConfusion h'
      · exact FsOp.noConfusion (List.eq_of_mem_replicate h')

theorem list_all_congr {l : List Nat} {f g : Nat → Bool}
    (h : ∀ x ∈ l, f x = g x) : l.all f = l.all g := by
  induction l with
  | nil => rfl
  | cons a t ih =>
    simp only [List.all_cons, h a (List.mem_cons_self a t),
      ih fun x hx => h x (List.mem_cons_of_mem a hx)]

theorem range_all_eq_true_iff (p : Nat → Bool) (n : Nat) :
    (List.range n).all p = true ↔ ∀ i, i < n → p i = true := by
  simp [List.all_eq_true, List.mem_range]

/-- On a nonempty address with the scan length within bounds, the three
flag-4 sub-branches of `check_eth_address_pattern` (the two fast paths and
the guarded loop) all compute the same first-bytes scan. -/
theorem check4_eq_all (addr : List Nat) (v n : Nat) (hne : addr ≠ [])
    (hn : n ≤ addr.length) :
    checkEthAddressPattern none addr v 4 n =
      some ((List.range n).all fun i => addr.getD i 0 == v) := by
  obtain ⟨a, l, rfl⟩ : ∃ a l, addr = a :: l := by
    cases addr with
    | nil => exact absurd rfl hne
    | cons a l => exact ⟨a, l, rfl⟩
  have hr1 : List.range 1 = [0] := rfl
  have hr2 : List.range 2 = [0, 1] := rfl
  rcases n with _ | _ | _ | m
  · simp [checkEthAddressPattern]
  · simp [checkEthAddressPattern, hr1]
  · rcases l with _ | ⟨b, l'⟩
    · simp at hn
    · by_cases hav : a = v
      · simp [checkEthAddressPattern, hr2, hav]
      · simp [checkEthAddressPattern, hr2, hav]
  · have h1 : (m + 3 == 1) = false := beq_eq_false_iff_ne.mpr (by omega)
    have h2 : (m + 3 == 2) = false := beq_eq_false_iff_ne.mpr (by omega)
    simp only [checkEthAddressPattern, List.isEmpty_cons, h1, h2,
      Bool.false_eq_true, if_false]
    refine congrArg some (list_all_congr fun i hi => ?_)
    have hlt : i < l.length + 1 := by
      simpa using lt_of_lt_of_le (List.mem_range.mp hi) hn
    simp [hlt]

theorem replicate20_getD (i : Nat) : (List.replicate 20 (0 : Nat)).getD i 0 = 0 := by
  rcases Nat.lt_or_ge i 20 with h | h
  · rw [List.getD_eq_getElem _ _ (by simpa using h), List.getElem_replicate]
  · rw [List.getD_eq_default _ _ (by simpa using h)]

/-- C6: the compiled `LeadingZeros n` evaluator (flag 4 with pattern value 0)
returns true on a 20-byte address exactly when its first `n` bytes are all
zero, for every `n` in [1, 20]; consequently it accepts the all-zero address
for every such `n`, and `LeadingZeros 1` rejects any address whose first
byte is nonzero. -/
theorem leading_zeros_correct (addr : List Nat) (n : Nat) (h20 : addr.length = 20)
    (h1 : 1 ≤ n) (h2 : n ≤ 20) :
    (evalReward (.leadingZeros n) addr = some true ↔
      ∀ i, i < n → addr.getD i 0 = 0) ∧
    evalReward (.leadingZeros n) (List.replicate 20 0) = some true ∧
    (addr.getD 0 0 ≠ 0 → evalReward (.leadingZeros 1) addr = some false) := by
  have hne : addr ≠ [] := by
    intro h
    rw [h] at h20
    simp at h20
  have hev : ∀ (ad : List Nat) (m : Nat),
      evalReward (.leadingZeros m) ad = checkEthAddressPattern none ad 0 4 m :=
    fun _ _ => rfl
  refine ⟨?_, ?_, ?_⟩
  · rw [hev, check4_eq_all addr 0 n hne (by omega)]
    constructor
    · intro h i hi
      have hall := (range_all_eq_true_iff _ n).mp (Option.some_inj.mp h) i hi
      simpa using hall
    · intro h
      refine congrArg some ((range_all_eq_true_iff _ n).mpr fun i hi => ?_)
      simpa using h i hi
  · rw [hev, check4_eq_all (List.replicate 20 0) 0 n (by simp) (by simp [h2])]
    refine congrArg some ((range_all_eq_true_iff _ n).mpr fun i hi => ?_)
    simpa using replicate20_getD i
  · intro h0
    rw [hev, check4_eq_all addr 0 1 hne (by omega)]
    have hr1 : List.range 1 = [0] := rfl
    have hfalse : ((List.range 1).all fun i => addr.getD i 0 == 0) = false := by
      simp only [hr1, List.all_cons, List.all_nil, Bool.and_true]
      simpa using h0
    rw [hfalse]

/-- Witness for C6 at concrete inputs: first three bytes zero with scan
length 3 is accepted, and a nonzero first byte is rejected for length 1. -/
theorem leading_zeros_correct_witness :
    evalReward (.leadingZeros 3) (0 :: 0 :: 0 :: List.replicate 17 5) = some true ∧
    evalReward (.leadingZeros 1) (7 :: List.replicate 19 0) = some false :=
  ⟨((leading_zeros_correct (0 :: 0 :: 0 :: List.replicate 17 5) 3 (by decide)
      (by decide) (by decide)).1).mpr (by decide),
    (leading_zeros_correct (7 :: List.replicate 19 0) 1 (by decide) (by decide)
      (by decide)).2.2 (by decide)⟩

/-- C9 counterexample: the claim says no counter value is reused within a run
and that this holds for every batch base an oracle invocation receives.  The
oracle receives the counter truncated to 32 bits (the cast at line 331), so
batch 2 ^ 26 = 67108864 receives base 0 exactly as batch 0 does; and under
the wrapping 64-bit addition the host counter itself returns to 0 at batch
2 ^ 58 = 288230376151711744. -/
theorem oracle_base_reused :
    oracleBase 0 = 0 ∧ oracleBase 67108864 = 0 ∧
    hostNonce 0 = 0 ∧ hostNonce 288230376151711744 = 0 := by
  refine ⟨rfl, ?_, rfl, ?_⟩ <;> decide

/-- C9 amended: the host counter starts at 0 and advances by exactly the
batch size after every batch, and is strictly increasing (hence never
reused) as long as it does not overflow 64 bits; each oracle invocation,
however, receives only the low 32 bits of the counter as its batch base. -/
theorem counter_advance_and_truncation :
    hostNonce 0 = 0 ∧
    (∀ k, hostNonce (k + 1) = (hostNonce k + workSize) % 2 ^ 64) ∧
    (∀ j k, j < k → k * workSize < 2 ^ 64 → hostNonce j < hostNonce k) ∧
    (∀ k, oracleBase k = hostNonce k % 2 ^ 32) := by
  refine ⟨rfl, fun k => ?_, fun j k hjk hbound => ?_, fun k => rfl⟩
  · unfold hostNonce
    rw [Nat.add_mul, one_mul, Nat.mod_add_mod]
  · unfold hostNonce
    have hj : j * workSize < 2 ^ 64 :=
      lt_of_le_of_lt (Nat.mul_le_mul_right _ (le_of_lt hjk)) hbound
    rw [Nat.mod_eq_of_lt hj, Nat.mod_eq_of_lt hbound]
    exact (Nat.mul_lt_mul_right (show 0 < workSize by decide)).mpr hjk

/-- Witness for C9 at concrete batches 0 and 1. -/
theorem counter_advance_and_truncation_witness :
    hostNonce 0 < hostNonce 1 ∧ hostNonce 1 = workSize ∧ oracleBase 1 = workSize :=
  ⟨counter_advance_and_truncation.2.2.1 0 1 (by decide) (by decide),
    by decide, by decide⟩

/-- C10 counterexample: the claim says no branch of
`check_eth_address_pattern` reads past the end of the supplied slice for any
configuration, but the flag-4 fast path for pattern length 2 reads index 1
after matching index 0: on the one-byte slice [5] with pattern value 5 that
read is out of bounds (modelled as `none`, a panic in Rust). -/
theorem check_pattern_oob_singleton :
    checkEthAddressPattern none [5] 5 4 2 = none := by
  decide

/-- C10 amended: `check_eth_address_pattern` returns false on the empty
slice for every pattern configuration, and on every slice of at least two
bytes (in particular every 20-byte address) every branch stays in bounds;
only the flag-4, length-2 fast path on a one-byte slice can read out of
bounds. -/
theorem check_pattern_total_on_length_ge_two :
    ∀ (rp : Option (List Char)) (value flags plen : Nat),
      checkEthAddressPattern rp [] value flags plen = some false ∧
      ∀ addr : List Nat, 2 ≤ addr.length →
        (checkEthAddressPattern rp addr value flags plen).isSome = true := by
  intro rp value flags plen
  refine ⟨rfl, ?_⟩
  intro addr hlen
  rcases addr with _ | ⟨a, _ | ⟨b, t⟩⟩
  · simp at hlen
  · simp at hlen
  · have hlt : t.length < (b :: t).length := by simp
    have hx := List.get?_eq_get hlt
    unfold checkEthAddressPattern
    simp only [List.isEmpty_cons, Bool.false_eq_true, if_false, List.length_cons,
      Nat.add_sub_cancel, List.get?_cons_succ, List.get?_cons_zero]
    repeat' split
    all_goals try simp [hx]
    all_goals repeat' split
    all_goals rfl

/-- Witness for C10: a two-byte slice is evaluated without any out-of-bounds
access under an arbitrary configuration. -/
theorem check_pattern_total_witness :
    (checkEthAddressPattern none [1, 2] 3 4 5).isSome = true :=
  (check_pattern_total_on_length_ge_two none 3 4 5).2 [1, 2] (by decide)
